import Mathlib

/-!
Verification development for the weekly production-planning scheduler
(src/etl.py of the production-planning-dashboard repository).

Embedding conventions:
- Python floats are modelled as exact rationals.
- Python datetimes within one scheduling day are modelled as integer minutes
  from that day's midnight, so dt_combine(date, time(8, 0)) is the constant 480
  and all interval arithmetic is on integer minutes.
- pandas DataFrames are modelled as lists of records; a left merge produces,
  for each left row, one row per matching right row (or a single row with a
  missing value when there is no match).
- Python sets of operators are modelled as lists used only through membership.
- Python dict indexing with defaults is modelled by total functions.
- round(x, 2) rounds half to even on the exact rational.
- int(x) truncates toward zero.
-/

set_option maxHeartbeats 1000000
set_option maxRecDepth 4000

/-- TIME_STEP_MIN = 15 (src/etl.py line 24). -/
def TIME_STEP_MIN : ℤ := 15

/-- START_TIME = time(8, 0) (src/etl.py line 25), in minutes from midnight. -/
def START_TIME_MIN : ℤ := 480

/-- Python int(q): truncation toward zero. -/
def pyInt (q : ℚ) : ℤ := if q < 0 then ⌈q⌉ else ⌊q⌋

/-- round_up_to_step (src/etl.py lines 64-65): int(np.ceil(minutes / step) * step). -/
def round_up_to_step (minutes : ℤ) (step : ℤ) : ℤ :=
  ⌈(minutes : ℚ) / (step : ℚ)⌉ * step

/-- Python round(x, 2): round to nearest multiple of 1/100, ties to even. -/
def round2 (x : ℚ) : ℚ :=
  let y := x * 100
  let n := ⌊y⌋
  let r : ℤ :=
    if (1 : ℚ) / 2 < y - n then n + 1
    else if y - n < (1 : ℚ) / 2 then n
    else if n % 2 = 0 then n else n + 1
  (r : ℚ) / 100

/-- A calendar date, as used by datetime.date. -/
structure Date where
  year : ℕ
  month : ℕ
  day : ℕ
deriving DecidableEq

/-- Gregorian leap-year test. -/
def isLeapYear (y : ℕ) : Bool := (y % 4 == 0 && y % 100 != 0) || y % 400 == 0

/-- Number of days in a month of a given year. -/
def daysInMonth (y m : ℕ) : ℕ :=
  if m = 2 then (if isLeapYear y then 29 else 28)
  else if m = 4 ∨ m = 6 ∨ m = 9 ∨ m = 11 then 30
  else 31

/-- Days in the year before the first day of month m. -/
def daysBeforeMonth (y m : ℕ) : ℕ :=
  [0, 31, 59, 90, 120, 151, 181, 212, 243, 273, 304, 334].getD (m - 1) 0 +
    (if 2 < m && isLeapYear y then 1 else 0)

/-- Days before January 1 of year y in the proleptic Gregorian calendar. -/
def daysBeforeYear (y : ℕ) : ℕ :=
  365 * (y - 1) + (y - 1) / 4 + (y - 1) / 400 - (y - 1) / 100

/-- Proleptic Gregorian ordinal of a date; date(1, 1, 1) has ordinal 1,
matching datetime.date.toordinal. -/
def dateOrdinal (d : Date) : ℕ :=
  daysBeforeYear d.year + daysBeforeMonth d.year d.month + d.day

/-- date.weekday(): Monday = 0 ... Sunday = 6. -/
def pyWeekday (d : Date) : ℕ := (dateOrdinal d - 1) % 7

/-- business_days_in_month (src/etl.py lines 67-74): the weekday (Mon-Fri)
dates of the month, in order. -/
def business_days_in_month (year month : ℕ) : List Date :=
  (List.range (daysInMonth year month)).filterMap (fun i =>
    let d : Date := ⟨year, month, i + 1⟩
    if pyWeekday d < 5 then some d else none)

/-- A task row: (Product, Subsystem, RemainingTime in hours). -/
structure TaskRow where
  product : String
  subsystem : String
  remainingTime : ℚ
deriving DecidableEq

/-- A training row: (Operator, Product, Subsystem, Trained). -/
structure TrainRow where
  operator : String
  product : String
  subsystem : String
  trained : String
deriving DecidableEq

/-- A stations row: (Product, Subsystem, Workcell). -/
structure StationRow where
  product : String
  subsystem : String
  workcell : String
deriving DecidableEq

/-- A task row after the left merge with stations (src/etl.py line 129):
Workcell is missing when no station matches. -/
structure MergedTask where
  product : String
  subsystem : String
  workcell : Option String
  remainingTime : ℚ
deriving DecidableEq

/-- Assignment (src/etl.py lines 104-106). The source field end is the Lean
keyword end, so it is called stop here. Times are minutes from midnight. -/
structure Assignment where
  operator : String
  product : String
  subsystem : String
  workcell : Option String
  start : ℤ
  stop : ℤ
  duration_h : ℚ
deriving DecidableEq

/-- A demand row: (Year, Month, Product, Quantity). -/
structure DemandRow where
  year : ℕ
  month : ℕ
  product : String
  quantity : ℚ
deriving DecidableEq

/-- A times row: (Product, Subsystem, Time in hours). -/
structure TimesRow where
  product : String
  subsystem : String
  time : ℚ
deriving DecidableEq

/-- A weekly-pool task after the final left merge with times
(src/etl.py line 99): Time is missing when no times row matches. -/
structure PoolTask where
  product : String
  subsystem : String
  time : Option ℚ
deriving DecidableEq

/-- can_place (src/etl.py lines 108-109). -/
def can_place (new_start new_stop : ℤ) (intervals : List (ℤ × ℤ)) : Bool :=
  intervals.all (fun iv => decide (new_stop ≤ iv.1) || decide (iv.2 ≤ new_start))

/-- The while loop of place_next_slot (src/etl.py lines 116-119), with explicit
fuel. The fuel passed by place_next_slot is max_minutes + 1, which is never
exhausted in the calls the scheduler makes (step_min = 15, dur_min ≥ 15). -/
def find_slot (fuel : ℕ) (t end_of_day dur_min step_min : ℤ)
    (occupied : List (ℤ × ℤ)) : Option (ℤ × ℤ) :=
  match fuel with
  | 0 => none
  | fuel + 1 =>
    if t + dur_min ≤ end_of_day then
      if can_place t (t + dur_min) occupied then some (t, t + dur_min)
      else find_slot fuel (t + step_min) end_of_day dur_min step_min occupied
    else none

/-- place_next_slot (src/etl.py lines 111-120). -/
def place_next_slot (day_start : ℤ) (max_minutes : ℤ) (duration_h : ℚ)
    (step_min : ℤ) (occupied : List (ℤ × ℤ)) : Option (ℤ × ℤ) :=
  let dur_min := round_up_to_step (pyInt (duration_h * 60)) step_min
  if dur_min = 0 then none
  else find_slot (max_minutes.toNat + 1) day_start (day_start + max_minutes)
    dur_min step_min occupied

/-- pandas Series.unique: keep the first occurrence of each element. -/
def unique_first {α : Type} [DecidableEq α] : List α → List α
  | [] => []
  | x :: xs => x :: unique_first (xs.filter (fun y => decide (y ≠ x)))
termination_by l => l.length
decreasing_by
  simp only [List.length_cons]
  exact Nat.lt_succ_of_le (List.length_filter_le _ _)

/-- Lexicographic order on integer intervals, as Python sorts pairs. -/
def intervalLe (a b : ℤ × ℤ) : Bool :=
  decide (a.1 < b.1) || (decide (a.1 = b.1) && decide (a.2 ≤ b.2))

/-- Python list.sort() on interval lists (stable, lexicographic). -/
def sortIntervals (l : List (ℤ × ℤ)) : List (ℤ × ℤ) :=
  List.insertionSort (fun u v => intervalLe u v = true) l

/-- The mutable day-local scheduling state of schedule_day_with_remaining:
committed assignments, per-operator and per-workcell occupied intervals,
per-operator remaining minutes, and the remainder rows. -/
structure SchedState where
  assignments : List Assignment
  occ_op : String → List (ℤ × ℤ)
  occ_wc : Option String → List (ℤ × ℤ)
  avail : String → ℤ
  remaining : List TaskRow

/-- One iteration of the operator loop (src/etl.py lines 146-172); the break at
line 147 is modelled by the initial guard, which freezes the accumulator once
scheduled reaches remain_h. The accumulator is (state, scheduled_this_task_h). -/
def try_op (base : ℤ) (prod sub : String) (wc : Option String) (remain_h : ℚ)
    (acc : SchedState × ℚ) (op : String) : SchedState × ℚ :=
  let st := acc.1
  let scheduled := acc.2
  if remain_h ≤ scheduled then acc
  else
    let op_avail_min := st.avail op
    if op_avail_min < TIME_STEP_MIN then acc
    else
      let task_rem_h := remain_h - scheduled
      let op_avail_h := (op_avail_min : ℚ) / 60
      let schedulable_h := min task_rem_h op_avail_h
      match place_next_slot START_TIME_MIN base schedulable_h TIME_STEP_MIN
          (st.occ_op op) with
      | none => acc
      | some (cand_start, cand_stop) =>
        if can_place cand_start cand_stop (st.occ_wc wc) then
          let duration_h : ℚ := (((cand_stop - cand_start) * 60 : ℤ) : ℚ) / 3600
          let a : Assignment := ⟨op, prod, sub, wc, cand_start, cand_stop, duration_h⟩
          let used_min := pyInt (duration_h * 60)
          (⟨st.assignments ++ [a],
            fun o => if o = op then sortIntervals (st.occ_op op ++ [(cand_start, cand_stop)]) else st.occ_op o,
            fun w => if w = wc then sortIntervals (st.occ_wc wc ++ [(cand_start, cand_stop)]) else st.occ_wc w,
            fun o => if o = op then st.avail o - used_min else st.avail o,
            st.remaining⟩, scheduled + duration_h)
        else acc

/-- The candidate-operator base list (src/etl.py lines 128 and 137):
operators of training rows with Trained == Y matching (prod, sub),
deduplicated keeping first occurrence. -/
def trained_for (trainings : List TrainRow) (prod sub : String) : List String :=
  unique_first
    (((trainings.filter (fun r => decide (r.trained = "Y"))).filter
      (fun r => decide (r.product = prod ∧ r.subsystem = sub))).map
      (fun r => r.operator))

/-- Processing of one task row (src/etl.py lines 134-176). -/
def process_task (base : ℤ) (trainings : List TrainRow) (available : List String)
    (st : SchedState) (t : MergedTask) : SchedState :=
  let cand_ops := (trained_for trainings t.product t.subsystem).filter
    (fun op => available.contains op && decide (0 < st.avail op))
  if cand_ops.isEmpty || decide (t.remainingTime ≤ 0) then
    { st with remaining := st.remaining ++ [⟨t.product, t.subsystem, t.remainingTime⟩] }
  else
    let sorted_ops := List.insertionSort (fun a b => st.avail b ≤ st.avail a) cand_ops
    let res := sorted_ops.foldl
      (try_op base t.product t.subsystem t.workcell t.remainingTime) (st, 0)
    let leftover := max 0 (round2 (t.remainingTime - res.2))
    if 0 < leftover then
      { res.1 with remaining := res.1.remaining ++ [⟨t.product, t.subsystem, leftover⟩] }
    else res.1

/-- tasks.merge(stations[[Product, Subsystem, Workcell]], how=left)
(src/etl.py line 129): each task row duplicates per matching station row;
with no match, Workcell is missing. dropna on RemainingTime is the identity
here since RemainingTime is an exact rational. -/
def merge_stations (tasks : List TaskRow) (stations : List StationRow) : List MergedTask :=
  tasks.flatMap (fun t =>
    let ms := stations.filter (fun s => decide (s.product = t.product ∧ s.subsystem = t.subsystem))
    if ms.isEmpty then [⟨t.product, t.subsystem, none, t.remainingTime⟩]
    else ms.map (fun s => ⟨t.product, t.subsystem, some s.workcell, t.remainingTime⟩))

/-- sort_values(RemainingTime, ascending=False) (src/etl.py line 129). -/
def sortTasksDesc (l : List MergedTask) : List MergedTask :=
  List.insertionSort (fun a b => b.remainingTime ≤ a.remainingTime) l

/-- base_minutes (src/etl.py line 124): 480 Mon-Thu, 360 Fri, 0 weekend. -/
def dayCapacity (weekday : ℕ) : ℤ :=
  if weekday < 4 then 480 else if weekday = 4 then 360 else 0

/-- Initial day-local state (src/etl.py lines 127 and 131): avail_min_per_op
maps available operators to base_minutes (others read as 0 via dict.get),
occupied-interval maps are empty. -/
def initState (base : ℤ) (available : List String) : SchedState :=
  ⟨[], fun _ => [], fun _ => [], fun op => if available.contains op then base else 0, []⟩

/-- The task loop of schedule_day_with_remaining (src/etl.py lines 129-176). -/
def day_fold (base : ℤ) (tasks : List TaskRow) (trainings : List TrainRow)
    (stations : List StationRow) (available : List String) : SchedState :=
  (sortTasksDesc (merge_stations tasks stations)).foldl
    (process_task base trainings available) (initState base available)

/-- schedule_day_with_remaining (src/etl.py lines 122-178). The calendar day
is represented by its weekday (target_date.weekday()); within the day all
times are minutes from midnight, so day_start is the constant 480. -/
def schedule_day_with_remaining (weekday : ℕ) (tasks : List TaskRow)
    (trainings : List TrainRow) (stations : List StationRow)
    (available : List String) : List Assignment × List TaskRow :=
  let base_minutes := dayCapacity weekday
  if 5 ≤ weekday ∨ base_minutes = 0 then ([], tasks)
  else
    let final := day_fold base_minutes tasks trainings stations available
    (final.assignments, final.remaining)

/-- make_weekly_task_pool (src/etl.py lines 83-99). In pandas, the final merge
would raise if the intermediate row list were empty while month demand is not;
this embedding returns the empty pool in that case, which no claim exercises. -/
def make_weekly_task_pool (demand : List DemandRow) (times : List TimesRow)
    (target_date : Date) (demand_multiplier : ℚ) : List PoolTask :=
  let month := target_date.month
  let year := target_date.year
  let biz_days := business_days_in_month year month
  let month_demand := demand.filter (fun r => decide (r.year = year ∧ r.month = month))
  if month_demand.isEmpty then []
  else
    let rows := month_demand.flatMap (fun r =>
      let qty : ℤ := ⌈r.quantity * demand_multiplier⌉
      let subs := (times.filter (fun t => decide (t.product = r.product))).map
        (fun t => t.subsystem)
      if subs.isEmpty then []
      else
        let daily_target : ℤ := ⌈(qty : ℚ) / ((max 1 biz_days.length : ℕ) : ℚ)⌉
        (List.range (daily_target * 5).toNat).flatMap
          (fun _ => subs.map (fun s => (r.product, s))))
    rows.flatMap (fun ps =>
      let ms := times.filter (fun t => decide (t.product = ps.1 ∧ t.subsystem = ps.2))
      if ms.isEmpty then [⟨ps.1, ps.2, none⟩]
      else ms.map (fun t => ⟨ps.1, ps.2, some t.time⟩))

/-- Lexicographic order on (Product, Subsystem) keys, as pandas groupby sorts. -/
def pairLe (a b : String × String) : Bool :=
  match compare a.1 b.1 with
  | Ordering.lt => true
  | Ordering.gt => false
  | Ordering.eq =>
    match compare a.2 b.2 with
    | Ordering.gt => false
    | _ => true

/-- _aggregate_remaining (src/etl.py lines 180-182): group the pool by
(Product, Subsystem) with keys sorted, summing Time (missing Time counts 0)
into RemainingTime. -/
def aggregate_remaining (pool : List PoolTask) : List TaskRow :=
  let keys := List.insertionSort (fun a b => pairLe a b = true)
    (unique_first (pool.map (fun t => (t.product, t.subsystem))))
  keys.map (fun k => ⟨k.1, k.2,
    ((pool.filter (fun t => decide (t.product = k.1 ∧ t.subsystem = k.2))).map
      (fun t => t.time.getD 0)).sum⟩)

/-- remaining.merge(times, how=left) (src/etl.py line 209): rows duplicate per
matching times row; RemainingTime is preserved and the added Time column is
never read by the scheduler. -/
def merge_times_remaining (remaining : List TaskRow) (times : List TimesRow) : List TaskRow :=
  remaining.flatMap (fun t =>
    let ms := times.filter (fun r => decide (r.product = t.product ∧ r.subsystem = t.subsystem))
    if ms.isEmpty then [t] else ms.map (fun _ => t))

/-- The body of one proposal of generate_weekly_proposals (src/etl.py lines
195-216), for a fixed demand multiplier: build the pool for the week of
monday, aggregate it, then run the day scheduler over offsets 0..4 carrying
the remainder. The availability dict keyed by date is modelled as a function
of the day offset; the weekday of monday + offset is
(pyWeekday monday + offset) % 7. Output rows are (offset, assignment). -/
def generate_weekly_proposal (demand : List DemandRow) (times : List TimesRow)
    (stations : List StationRow) (trainings : List TrainRow) (monday : Date)
    (dem_mult : ℚ) (available_operators_by_day : ℕ → List String) :
    List (ℕ × Assignment) :=
  let base_tasks := make_weekly_task_pool demand times monday dem_mult
  if base_tasks.isEmpty then []
  else
    let init : List (ℕ × Assignment) × List TaskRow := ([], aggregate_remaining base_tasks)
    ((List.range 5).foldl (fun acc offset =>
      let avail_ops := available_operators_by_day offset
      if avail_ops.isEmpty || acc.2.isEmpty then acc
      else
        let tasks_with_times := merge_times_remaining acc.2 times
        let day := schedule_day_with_remaining ((pyWeekday monday + offset) % 7)
          tasks_with_times trainings stations avail_ops
        (acc.1 ++ day.1.map (fun a => (offset, a)), day.2)) init).1

/-- Minutes an operator is booked for in a list of assignments. -/
def opUsed (op : String) (l : List Assignment) : ℤ :=
  ((l.filter (fun a => decide (a.operator = op))).map (fun a => a.stop - a.start)).sum

/-- Total committed hours of a list of assignments. -/
def sumDurH (l : List Assignment) : ℚ := (l.map (fun a => a.duration_h)).sum

/-- Total remaining hours of a list of task rows. -/
def sumRem (l : List TaskRow) : ℚ := (l.map (fun t => t.remainingTime)).sum

/-- Two assignments clash neither on operator nor on workcell: if they share
an operator or a workcell, their half-open intervals are disjoint. -/
def noClash (a b : Assignment) : Prop :=
  (a.operator = b.operator → a.stop ≤ b.start ∨ b.stop ≤ a.start) ∧
  (a.workcell = b.workcell → a.stop ≤ b.start ∨ b.stop ≤ a.start)

/-! Helper lemmas. -/

theorem foldl_inv {α β : Type} (P : α → Prop) (f : α → β → α) :
    ∀ (l : List β) (init : α), P init → (∀ acc b, b ∈ l → P acc → P (f acc b)) →
      P (l.foldl f init)
  | [], init, h0, _ => h0
  | b :: bs, init, h0, hstep =>
    foldl_inv P f bs (f init b) (hstep init b (List.mem_cons_self _ _) h0)
      (fun acc x hx hP => hstep acc x (List.mem_cons_of_mem _ hx) hP)

theorem can_place_iff {s e : ℤ} {l : List (ℤ × ℤ)} :
    can_place s e l = true ↔ ∀ iv ∈ l, e ≤ iv.1 ∨ iv.2 ≤ s := by
  simp [can_place, List.all_eq_true]

theorem mem_sortIntervals {x : ℤ × ℤ} {l : List (ℤ × ℤ)} :
    x ∈ sortIntervals l ↔ x ∈ l :=
  (List.perm_insertionSort _ l).mem_iff

theorem unique_first_subset {α : Type} [DecidableEq α] :
    ∀ (l : List α), ∀ x ∈ unique_first l, x ∈ l
  | [] => by simp [unique_first]
  | a :: as => by
    intro x hx
    rw [unique_first] at hx
    rcases List.mem_cons.mp hx with h | h
    · exact h ▸ List.mem_cons_self _ _
    · have := unique_first_subset (as.filter (fun y => decide (y ≠ a))) x h
      exact List.mem_cons_of_mem _ (List.mem_of_mem_filter this)
termination_by l => l.length
decreasing_by
  simp only [List.length_cons]
  exact Nat.lt_succ_of_le (List.length_filter_le _ _)

theorem find_slot_some {occ : List (ℤ × ℤ)} :
    ∀ (fuel : ℕ) (t end_of_day dur step s e : ℤ),
      find_slot fuel t end_of_day dur step occ = some (s, e) →
      e = s + dur ∧ e ≤ end_of_day ∧ can_place s e occ = true ∧
        ∃ k : ℕ, s = t + (k : ℤ) * step := by
  intro fuel
  induction fuel with
  | zero => intro t end_of_day dur step s e h; simp [find_slot] at h
  | succ n ih =>
    intro t end_of_day dur step s e h
    rw [find_slot] at h
    split at h
    · rename_i hin
      split at h
      · rename_i hcp
        simp only [Option.some.injEq, Prod.mk.injEq] at h
        obtain ⟨h1, h2⟩ := h
        subst h1; subst h2
        exact ⟨rfl, hin, hcp, 0, by ring⟩
      · obtain ⟨h1, h2, h3, k, hk⟩ := ih (t + step) end_of_day dur step s e h
        exact ⟨h1, h2, h3, k + 1, by rw [hk]; push_cast; ring⟩
    · simp at h

theorem find_slot_nil_start :
    ∀ (fuel : ℕ) (t end_of_day dur step s e : ℤ),
      find_slot fuel t end_of_day dur step [] = some (s, e) → s = t := by
  intro fuel t end_of_day dur step s e h
  cases fuel with
  | zero => simp [find_slot] at h
  | succ n =>
    rw [find_slot] at h
    split at h
    · have hcp : can_place t (t + dur) ([] : List (ℤ × ℤ)) = true := rfl
      rw [if_pos hcp] at h
      simp only [Option.some.injEq, Prod.mk.injEq] at h
      exact h.1.symm
    · simp at h

theorem place_next_slot_some {day_start max_minutes : ℤ} {duration_h : ℚ}
    {step : ℤ} {occ : List (ℤ × ℤ)} {s e : ℤ}
    (hp : place_next_slot day_start max_minutes duration_h step occ = some (s, e)) :
    round_up_to_step (pyInt (duration_h * 60)) step ≠ 0 ∧
    e = s + round_up_to_step (pyInt (duration_h * 60)) step ∧
    e ≤ day_start + max_minutes ∧ can_place s e occ = true ∧
    ∃ k : ℕ, s = day_start + (k : ℤ) * step := by
  rw [place_next_slot] at hp
  split at hp
  · simp at hp
  · rename_i hne
    obtain ⟨h1, h2, h3, hk⟩ := find_slot_some _ _ _ _ _ _ _ hp
    exact ⟨hne, h1, h2, h3, hk⟩

theorem place_next_slot_nil_start {day_start max_minutes : ℤ} {duration_h : ℚ}
    {step : ℤ} {s e : ℤ}
    (hp : place_next_slot day_start max_minutes duration_h step [] = some (s, e)) :
    s = day_start := by
  rw [place_next_slot] at hp
  split at hp
  · simp at hp
  · exact find_slot_nil_start _ _ _ _ _ _ _ hp

theorem round_up_mod_15 (m : ℤ) : round_up_to_step m 15 % 15 = 0 := by
  rw [round_up_to_step]
  exact Int.mul_emod_left _ _

theorem le_round_up_15 (m : ℤ) : m ≤ round_up_to_step m 15 := by
  rw [round_up_to_step]
  have h15 : ((15 : ℤ) : ℚ) = (15 : ℚ) := by norm_num
  rw [h15]
  have h1 : (m : ℚ) / 15 ≤ (⌈(m : ℚ) / 15⌉ : ℚ) := Int.le_ceil _
  have h2 : (m : ℚ) ≤ (⌈(m : ℚ) / 15⌉ : ℚ) * 15 := by
    rw [div_le_iff₀ (by norm_num : (0 : ℚ) < 15)] at h1
    exact h1
  exact_mod_cast h2

theorem round_up_le_add_15 (m : ℤ) : round_up_to_step m 15 ≤ m + 14 := by
  rw [round_up_to_step]
  have h15 : ((15 : ℤ) : ℚ) = (15 : ℚ) := by norm_num
  rw [h15]
  have h1 : (⌈(m : ℚ) / 15⌉ : ℚ) < (m : ℚ) / 15 + 1 := Int.ceil_lt_add_one _
  have h2 : (⌈(m : ℚ) / 15⌉ : ℚ) * 15 < (m : ℚ) + 15 := by
    have h3 := mul_lt_mul_of_pos_right h1 (by norm_num : (0 : ℚ) < 15)
    calc (⌈(m : ℚ) / 15⌉ : ℚ) * 15 < ((m : ℚ) / 15 + 1) * 15 := h3
      _ = (m : ℚ) + 15 := by field_simp
  have h4 : ⌈(m : ℚ) / 15⌉ * 15 < m + 15 := by exact_mod_cast h2
  omega

theorem round_up_le_of_mod_15 (m a : ℤ) (ha : a % 15 = 0) (h : m ≤ a) :
    round_up_to_step m 15 ≤ a := by
  obtain ⟨k, hk⟩ : (15 : ℤ) ∣ a := Int.dvd_of_emod_eq_zero ha
  rw [round_up_to_step]
  have h15 : ((15 : ℤ) : ℚ) = (15 : ℚ) := by norm_num
  rw [h15]
  have hceil : ⌈(m : ℚ) / 15⌉ ≤ k := by
    apply Int.ceil_le.mpr
    rw [div_le_iff₀ (by norm_num : (0 : ℚ) < 15)]
    have hq : (m : ℚ) ≤ (a : ℚ) := by exact_mod_cast h
    rw [hk] at hq
    push_cast at hq ⊢
    linarith
  have h2 := mul_le_mul_of_nonneg_right hceil (by norm_num : (0 : ℤ) ≤ 15)
  omega

theorem pyInt_eq_floor {q : ℚ} (h : 0 ≤ q) : pyInt q = ⌊q⌋ := by
  rw [pyInt, if_neg (not_lt.mpr h)]

theorem pyInt_cast_le {q : ℚ} (h : 0 ≤ q) : (pyInt q : ℚ) ≤ q := by
  rw [pyInt_eq_floor h]
  exact Int.floor_le q

theorem pyInt_nonneg {q : ℚ} (h : 0 ≤ q) : 0 ≤ pyInt q := by
  rw [pyInt_eq_floor h]
  exact Int.floor_nonneg.mpr h

theorem pyInt_le_of_le {q : ℚ} {a : ℤ} (h0 : 0 ≤ q) (h : q ≤ (a : ℚ)) :
    pyInt q ≤ a := by
  rw [pyInt_eq_floor h0]
  calc ⌊q⌋ ≤ ⌊(a : ℚ)⌋ := Int.floor_le_floor h
    _ = a := Int.floor_intCast a

theorem pyInt_intCast (n : ℤ) : pyInt (n : ℚ) = n := by
  rw [pyInt]
  split
  · exact Int.ceil_intCast n
  · exact Int.floor_intCast n

theorem round2_bounds (x : ℚ) : x - 1/200 ≤ round2 x ∧ round2 x ≤ x + 1/200 := by
  rw [round2]
  have h0 : ((⌊x * 100⌋ : ℤ) : ℚ) ≤ x * 100 := Int.floor_le _
  have h1 : x * 100 < (⌊x * 100⌋ : ℚ) + 1 := Int.lt_floor_add_one _
  have h100 : (0 : ℚ) < 100 := by norm_num
  split_ifs with ha hb hc <;>
    exact ⟨by rw [le_div_iff₀ h100]; push_cast; linarith,
      by rw [div_le_iff₀ h100]; push_cast; linarith⟩

theorem opUsed_append (op : String) (l : List Assignment) (a : Assignment) :
    opUsed op (l ++ [a]) = opUsed op l + (if a.operator = op then a.stop - a.start else 0) := by
  rw [opUsed, opUsed, List.filter_append, List.map_append, List.sum_append]
  congr 1
  split
  · rename_i h
    simp [h]
  · rename_i h
    simp [h]

/-- The inductive invariant of the day scheduler state: the occupied-interval
maps mirror the committed assignments, the remaining-capacity counters account
for committed minutes, every assignment is on the grid, inside the window,
trained, and mutually non-clashing, and each scheduled operator has an
assignment starting at day start. -/
structure DayInv (base : ℤ) (available : List String) (trainings : List TrainRow)
    (st : SchedState) : Prop where
  occ_op_mem : ∀ op x, x ∈ st.occ_op op ↔
    ∃ a ∈ st.assignments, a.operator = op ∧ a.start = x.1 ∧ a.stop = x.2
  occ_wc_mem : ∀ w x, x ∈ st.occ_wc w ↔
    ∃ a ∈ st.assignments, a.workcell = w ∧ a.start = x.1 ∧ a.stop = x.2
  avail_nonneg : ∀ op, 0 ≤ st.avail op
  avail_mod : ∀ op, st.avail op % 15 = 0
  avail_sum : ∀ op, opUsed op st.assignments + st.avail op =
    (if available.contains op then base else 0)
  bounds : ∀ a ∈ st.assignments, START_TIME_MIN ≤ a.start ∧ a.start < a.stop ∧
    a.stop ≤ START_TIME_MIN + base ∧ (a.start - START_TIME_MIN) % 15 = 0 ∧
    (a.stop - a.start) % 15 = 0 ∧ a.duration_h = ((a.stop - a.start : ℤ) : ℚ) / 60
  trained_ok : ∀ a ∈ st.assignments, ∃ r ∈ trainings, r.trained = "Y" ∧
    r.operator = a.operator ∧ r.product = a.product ∧ r.subsystem = a.subsystem
  no_overlap : List.Pairwise noClash st.assignments
  first_start : ∀ op, (∃ a ∈ st.assignments, a.operator = op) →
    ∃ a ∈ st.assignments, a.operator = op ∧ a.start = START_TIME_MIN

theorem try_op_spec (base : ℤ) (prod sub : String) (wc : Option String)
    (remain_h : ℚ) (st : SchedState) (scheduled : ℚ) (op : String) :
    try_op base prod sub wc remain_h (st, scheduled) op = (st, scheduled) ∨
    ∃ a : Assignment,
      a.operator = op ∧ a.product = prod ∧ a.subsystem = sub ∧ a.workcell = wc ∧
      scheduled < remain_h ∧
      START_TIME_MIN ≤ a.start ∧ a.start < a.stop ∧ a.stop ≤ START_TIME_MIN + base ∧
      (a.start - START_TIME_MIN) % 15 = 0 ∧ (a.stop - a.start) % 15 = 0 ∧
      a.duration_h = ((a.stop - a.start : ℤ) : ℚ) / 60 ∧
      a.duration_h ≤ (remain_h - scheduled) + 14/60 ∧
      (st.avail op % 15 = 0 → a.stop - a.start ≤ st.avail op) ∧
      can_place a.start a.stop (st.occ_op op) = true ∧
      can_place a.start a.stop (st.occ_wc wc) = true ∧
      (st.occ_op op = [] → a.start = START_TIME_MIN) ∧
      try_op base prod sub wc remain_h (st, scheduled) op =
        (⟨st.assignments ++ [a],
          fun o => if o = op then sortIntervals (st.occ_op op ++ [(a.start, a.stop)]) else st.occ_op o,
          fun w => if w = wc then sortIntervals (st.occ_wc wc ++ [(a.start, a.stop)]) else st.occ_wc w,
          fun o => if o = op then st.avail o - (a.stop - a.start) else st.avail o,
          st.remaining⟩, scheduled + a.duration_h) := by
  by_cases h1 : remain_h ≤ scheduled
  · left
    simp only [try_op, if_pos h1]
  by_cases h2 : st.avail op < TIME_STEP_MIN
  · left
    simp only [try_op, if_neg h1, if_pos h2]
  rcases hps : place_next_slot START_TIME_MIN base
      (min (remain_h - scheduled) ((st.avail op : ℚ) / 60)) TIME_STEP_MIN
      (st.occ_op op) with _ | ⟨s, e⟩
  · left
    simp only [try_op, if_neg h1, if_neg h2, hps]
  by_cases h3 : can_place s e (st.occ_wc wc) = true
  · -- the commit case
    right
    have hstep : TIME_STEP_MIN = (15 : ℤ) := rfl
    have h1' : scheduled < remain_h := not_le.mp h1
    have h2' : (15 : ℤ) ≤ st.avail op := by
      rw [hstep] at h2
      omega
    set sched_h : ℚ := min (remain_h - scheduled) ((st.avail op : ℚ) / 60) with hsched
    have hsh_pos : 0 < sched_h := by
      apply lt_min
      · linarith
      · have : (15 : ℚ) ≤ (st.avail op : ℚ) := by exact_mod_cast h2'
        positivity
    set m : ℤ := pyInt (sched_h * 60) with hm
    have hm_nonneg : 0 ≤ m := pyInt_nonneg (by positivity)
    have hm_le : (m : ℚ) ≤ sched_h * 60 := pyInt_cast_le (by positivity)
    obtain ⟨hd0, he, hee, hcp, k, hk⟩ := place_next_slot_some hps
    rw [hstep] at he hd0
    set d : ℤ := round_up_to_step m 15 with hd
    have hd_ge : m ≤ d := le_round_up_15 m
    have hd_pos : 0 < d := lt_of_le_of_ne (le_trans hm_nonneg hd_ge) (Ne.symm hd0)
    have hd_mod : d % 15 = 0 := round_up_mod_15 m
    have hd_le : d ≤ m + 14 := round_up_le_add_15 m
    have hse : e = s + d := he
    have hs_ge : START_TIME_MIN ≤ s := by
      rw [hk, hstep]
      have : (0 : ℤ) ≤ (k : ℤ) * 15 := by positivity
      omega
    have hs_mod : (s - START_TIME_MIN) % 15 = 0 := by
      rw [hk, hstep]
      simp [Int.add_mul_emod_self_left]
    have hdurcast : (((e - s) * 60 : ℤ) : ℚ) / 3600 = ((e - s : ℤ) : ℚ) / 60 := by
      push_cast
      ring
    have hused : pyInt ((((e - s) * 60 : ℤ) : ℚ) / 3600 * 60) = e - s := by
      have hx : (((e - s) * 60 : ℤ) : ℚ) / 3600 * 60 = ((e - s : ℤ) : ℚ) := by
        push_cast
        ring
      rw [hx, pyInt_intCast]
    refine ⟨⟨op, prod, sub, wc, s, e, (((e - s) * 60 : ℤ) : ℚ) / 3600⟩,
      rfl, rfl, rfl, rfl, h1', hs_ge, ?_, hee, hs_mod, ?_, hdurcast, ?_, ?_, hcp, h3, ?_, ?_⟩
    · show s < e
      omega
    · show (e - s) % 15 = 0
      omega
    · show (((e - s) * 60 : ℤ) : ℚ) / 3600 ≤ (remain_h - scheduled) + 14/60
      rw [hdurcast]
      have hmin : sched_h ≤ remain_h - scheduled := min_le_left _ _
      have hes : ((e - s : ℤ) : ℚ) ≤ sched_h * 60 + 14 := by
        have h5 : e - s = d := by omega
        rw [h5]
        have : (d : ℚ) ≤ (m : ℚ) + 14 := by exact_mod_cast hd_le
        linarith
      rw [div_le_iff₀ (by norm_num : (0 : ℚ) < 60)]
      linarith
    · intro hmod
      show e - s ≤ st.avail op
      have h5 : e - s = d := by omega
      rw [h5, hd]
      apply round_up_le_of_mod_15 _ _ hmod
      apply pyInt_le_of_le (by positivity)
      have : sched_h ≤ (st.avail op : ℚ) / 60 := min_le_right _ _
      rw [le_div_iff₀ (by norm_num : (0 : ℚ) < 60)] at this
      linarith
    · intro hnil
      show s = START_TIME_MIN
      rw [hnil] at hps
      exact place_next_slot_nil_start hps
    · show try_op base prod sub wc remain_h (st, scheduled) op = _
      simp only [try_op, if_neg h1, if_neg h2, hps, if_pos h3, hused]
  · left
    simp only [try_op, if_neg h1, if_neg h2, hps, if_neg h3]

theorem try_op_inv (base : ℤ) (available : List String) (trainings : List TrainRow)
    (prod sub : String) (wc : Option String) (remain_h : ℚ)
    (st : SchedState) (scheduled : ℚ) (op : String)
    (hInv : DayInv base available trainings st)
    (hop : ∃ r ∈ trainings, r.trained = "Y" ∧ r.operator = op ∧
      r.product = prod ∧ r.subsystem = sub) :
    DayInv base available trainings
      (try_op base prod sub wc remain_h (st, scheduled) op).1 := by
  rcases try_op_spec base prod sub wc remain_h st scheduled op with heq |
    ⟨a, ha_op, ha_pr, ha_su, ha_wc, hlt, hb1, hb2, hb3, hb4, hb5, hb6, hble, havail,
      hcpop, hcpwc, hfirst, heq⟩
  · rw [heq]
    exact hInv
  rw [heq]
  dsimp only
  have havail_le : a.stop - a.start ≤ st.avail op := havail (hInv.avail_mod op)
  refine ⟨?_, ?_, ?_, ?_, ?_, ?_, ?_, ?_, ?_⟩
  · -- occ_op_mem
    intro o x
    dsimp only
    by_cases ho : o = op
    · subst ho
      rw [if_pos rfl, mem_sortIntervals]
      rw [List.mem_append, List.mem_singleton, hInv.occ_op_mem o x]
      constructor
      · rintro (⟨b, hb, hbo, hbs, hbe⟩ | hx)
        · exact ⟨b, List.mem_append_left _ hb, hbo, hbs, hbe⟩
        · exact ⟨a, List.mem_append_right _ (List.mem_singleton_self a), ha_op,
            by rw [hx], by rw [hx]⟩
      · rintro ⟨b, hb, hbo, hbs, hbe⟩
        rcases List.mem_append.mp hb with hb | hb
        · exact Or.inl ⟨b, hb, hbo, hbs, hbe⟩
        · rw [List.mem_singleton] at hb
          subst hb
          right
          rw [Prod.ext_iff]
          exact ⟨hbs.symm, hbe.symm⟩
    · rw [if_neg ho, hInv.occ_op_mem o x]
      constructor
      · rintro ⟨b, hb, hbo, hbs, hbe⟩
        exact ⟨b, List.mem_append_left _ hb, hbo, hbs, hbe⟩
      · rintro ⟨b, hb, hbo, hbs, hbe⟩
        rcases List.mem_append.mp hb with hb | hb
        · exact ⟨b, hb, hbo, hbs, hbe⟩
        · rw [List.mem_singleton] at hb
          subst hb
          exact absurd (hbo.symm.trans ha_op) ho
  · -- occ_wc_mem
    intro w x
    dsimp only
    by_cases hw : w = wc
    · subst hw
      rw [if_pos rfl, mem_sortIntervals]
      rw [List.mem_append, List.mem_singleton, hInv.occ_wc_mem w x]
      constructor
      · rintro (⟨b, hb, hbo, hbs, hbe⟩ | hx)
        · exact ⟨b, List.mem_append_left _ hb, hbo, hbs, hbe⟩
        · exact ⟨a, List.mem_append_right _ (List.mem_singleton_self a), ha_wc,
            by rw [hx], by rw [hx]⟩
      · rintro ⟨b, hb, hbo, hbs, hbe⟩
        rcases List.mem_append.mp hb with hb | hb
        · exact Or.inl ⟨b, hb, hbo, hbs, hbe⟩
        · rw [List.mem_singleton] at hb
          subst hb
          right
          rw [Prod.ext_iff]
          exact ⟨hbs.symm, hbe.symm⟩
    · rw [if_neg hw, hInv.occ_wc_mem w x]
      constructor
      · rintro ⟨b, hb, hbo, hbs, hbe⟩
        exact ⟨b, List.mem_append_left _ hb, hbo, hbs, hbe⟩
      · rintro ⟨b, hb, hbo, hbs, hbe⟩
        rcases List.mem_append.mp hb with hb | hb
        · exact ⟨b, hb, hbo, hbs, hbe⟩
        · rw [List.mem_singleton] at hb
          subst hb
          exact absurd (hbo.symm.trans ha_wc) hw
  · -- avail_nonneg
    intro o
    dsimp only
    by_cases ho : o = op
    · subst ho
      rw [if_pos rfl]
      omega
    · rw [if_neg ho]
      exact hInv.avail_nonneg o
  · -- avail_mod
    intro o
    dsimp only
    by_cases ho : o = op
    · subst ho
      rw [if_pos rfl]
      have h1 := hInv.avail_mod o
      omega
    · rw [if_neg ho]
      exact hInv.avail_mod o
  · -- avail_sum
    intro o
    dsimp only
    rw [opUsed_append]
    by_cases ho : o = op
    · subst ho
      rw [if_pos rfl, if_pos ha_op]
      have h1 := hInv.avail_sum o
      omega
    · rw [if_neg ho, if_neg (fun h => ho (h.symm.trans ha_op))]
      have h1 := hInv.avail_sum o
      omega
  · -- bounds
    intro b hb
    rcases List.mem_append.mp hb with hb | hb
    · exact hInv.bounds b hb
    · rw [List.mem_singleton] at hb
      subst hb
      exact ⟨hb1, hb2, hb3, hb4, hb5, hb6⟩
  · -- trained_ok
    intro b hb
    rcases List.mem_append.mp hb with hb | hb
    · exact hInv.trained_ok b hb
    · rw [List.mem_singleton] at hb
      subst hb
      obtain ⟨r, hr, hry, hro, hrp, hrs⟩ := hop
      exact ⟨r, hr, hry, by rw [hro, ha_op], by rw [hrp, ha_pr], by rw [hrs, ha_su]⟩
  · -- no_overlap
    rw [List.pairwise_append]
    refine ⟨hInv.no_overlap, List.pairwise_singleton _ _, ?_⟩
    intro b hb c hc
    rw [List.mem_singleton] at hc
    subst hc
    constructor
    · intro hbo
      have hmem : ((b.start, b.stop) : ℤ × ℤ) ∈ st.occ_op op :=
        (hInv.occ_op_mem op (b.start, b.stop)).mpr ⟨b, hb, by rw [hbo, ha_op], rfl, rfl⟩
      have := (can_place_iff.mp hcpop) (b.start, b.stop) hmem
      tauto
    · intro hbw
      have hmem : ((b.start, b.stop) : ℤ × ℤ) ∈ st.occ_wc wc :=
        (hInv.occ_wc_mem wc (b.start, b.stop)).mpr ⟨b, hb, by rw [hbw, ha_wc], rfl, rfl⟩
      have := (can_place_iff.mp hcpwc) (b.start, b.stop) hmem
      tauto
  · -- first_start
    intro o ho
    obtain ⟨b, hb, hbo⟩ := ho
    rcases List.mem_append.mp hb with hb | hb
    · obtain ⟨c, hc, hco, hcs⟩ := hInv.first_start o ⟨b, hb, hbo⟩
      exact ⟨c, List.mem_append_left _ hc, hco, hcs⟩
    · rw [List.mem_singleton] at hb
      subst hb
      by_cases hex : ∃ c ∈ st.assignments, c.operator = op
      · obtain ⟨c, hc, hco, hcs⟩ := hInv.first_start op hex
        exact ⟨c, List.mem_append_left _ hc, hco.trans (ha_op.symm.trans hbo), hcs⟩
      · have hnil : st.occ_op op = [] := by
          rw [List.eq_nil_iff_forall_not_mem]
          intro x hx
          obtain ⟨c, hc, hco, _, _⟩ := (hInv.occ_op_mem op x).mp hx
          exact hex ⟨c, hc, hco⟩
        exact ⟨b, List.mem_append_right _ (List.mem_singleton_self b), hbo,
          hfirst hnil⟩

theorem trained_for_mem {trainings : List TrainRow} {p s op : String}
    (h : op ∈ trained_for trainings p s) :
    ∃ r ∈ trainings, r.trained = "Y" ∧ r.operator = op ∧ r.product = p ∧
      r.subsystem = s := by
  rw [trained_for] at h
  have h2 := unique_first_subset _ op h
  obtain ⟨r, hr, hop⟩ := List.mem_map.mp h2
  rw [List.mem_filter] at hr
  obtain ⟨hr1, hr2⟩ := hr
  rw [List.mem_filter] at hr1
  obtain ⟨hr0, hry⟩ := hr1
  rw [decide_eq_true_eq] at hr2 hry
  exact ⟨r, hr0, hry, hop, hr2.1, hr2.2⟩

theorem process_task_inv (base : ℤ) (trainings : List TrainRow)
    (available : List String) (st : SchedState) (t : MergedTask)
    (hInv : DayInv base available trainings st) :
    DayInv base available trainings (process_task base trainings available st t) := by
  rw [process_task]
  split
  · exact ⟨hInv.occ_op_mem, hInv.occ_wc_mem, hInv.avail_nonneg, hInv.avail_mod,
      hInv.avail_sum, hInv.bounds, hInv.trained_ok, hInv.no_overlap, hInv.first_start⟩
  · have hres := foldl_inv (fun acc : SchedState × ℚ => DayInv base available trainings acc.1)
      (try_op base t.product t.subsystem t.workcell t.remainingTime)
      (List.insertionSort (fun a b => st.avail b ≤ st.avail a)
        ((trained_for trainings t.product t.subsystem).filter
          (fun op => available.contains op && decide (0 < st.avail op))))
      (st, 0) hInv
      (fun acc op hmem hP => by
        have hop : op ∈ trained_for trainings t.product t.subsystem := by
          rw [(List.perm_insertionSort _ _).mem_iff] at hmem
          exact List.mem_of_mem_filter hmem
        exact try_op_inv base available trainings t.product t.subsystem t.workcell
          t.remainingTime acc.1 acc.2 op hP (trained_for_mem hop))
    dsimp only at hres ⊢
    split
    · exact ⟨hres.occ_op_mem, hres.occ_wc_mem, hres.avail_nonneg, hres.avail_mod,
        hres.avail_sum, hres.bounds, hres.trained_ok, hres.no_overlap, hres.first_start⟩
    · exact hres

theorem initState_inv (base : ℤ) (available : List String) (trainings : List TrainRow)
    (hb0 : 0 ≤ base) (hb15 : base % 15 = 0) :
    DayInv base available trainings (initState base available) := by
  refine ⟨?_, ?_, ?_, ?_, ?_, ?_, ?_, ?_, ?_⟩
  · intro op x
    simp [initState]
  · intro w x
    simp [initState]
  · intro op
    rw [initState]
    dsimp only
    split
    · exact hb0
    · exact le_refl 0
  · intro op
    rw [initState]
    dsimp only
    split
    · exact hb15
    · rfl
  · intro op
    rw [initState]
    dsimp only
    rw [opUsed]
    simp
  · intro a ha
    simp [initState] at ha
  · intro a ha
    simp [initState] at ha
  · rw [initState]
    exact List.Pairwise.nil
  · intro op h
    obtain ⟨a, ha, _⟩ := h
    simp [initState] at ha

theorem day_fold_inv (base : ℤ) (tasks : List TaskRow) (trainings : List TrainRow)
    (stations : List StationRow) (available : List String)
    (hb0 : 0 ≤ base) (hb15 : base % 15 = 0) :
    DayInv base available trainings
      (day_fold base tasks trainings stations available) := by
  rw [day_fold]
  apply foldl_inv (fun st => DayInv base available trainings st)
  · exact initState_inv base available trainings hb0 hb15
  · intro st t _ hP
    exact process_task_inv base trainings available st t hP

theorem dayCapacity_nonneg (weekday : ℕ) : 0 ≤ dayCapacity weekday := by
  rw [dayCapacity]
  split
  · norm_num
  · split <;> norm_num

theorem dayCapacity_mod (weekday : ℕ) : dayCapacity weekday % 15 = 0 := by
  rw [dayCapacity]
  split
  · norm_num
  · split <;> norm_num

theorem schedule_day_inv (weekday : ℕ) (tasks : List TaskRow)
    (trainings : List TrainRow) (stations : List StationRow)
    (available : List String) (h : ¬ (5 ≤ weekday ∨ dayCapacity weekday = 0)) :
    DayInv (dayCapacity weekday) available trainings
      (day_fold (dayCapacity weekday) tasks trainings stations available) :=
  day_fold_inv _ tasks trainings stations available (dayCapacity_nonneg weekday)
    (dayCapacity_mod weekday)

theorem schedule_day_eq (weekday : ℕ) (tasks : List TaskRow)
    (trainings : List TrainRow) (stations : List StationRow)
    (available : List String) :
    schedule_day_with_remaining weekday tasks trainings stations available =
      if 5 ≤ weekday ∨ dayCapacity weekday = 0 then ([], tasks)
      else ((day_fold (dayCapacity weekday) tasks trainings stations available).assignments,
        (day_fold (dayCapacity weekday) tasks trainings stations available).remaining) := rfl

/-- Claim C1: for every invocation of the Day Scheduler
(schedule_day_with_remaining) and for the full list of Assignments it
produces, any two Assignments sharing the same Operator have non-overlapping
[Start, End) intervals, and any two Assignments sharing the same Workcell
have non-overlapping [Start, End) intervals. -/
theorem c1_no_double_booking (weekday : ℕ) (tasks : List TaskRow)
    (trainings : List TrainRow) (stations : List StationRow)
    (available : List String) :
    List.Pairwise noClash
      (schedule_day_with_remaining weekday tasks trainings stations available).1 := by
  by_cases hc : 5 ≤ weekday ∨ dayCapacity weekday = 0
  · rw [schedule_day_eq, if_pos hc]
    exact List.Pairwise.nil
  · rw [schedule_day_eq, if_neg hc]
    exact (schedule_day_inv weekday tasks trainings stations available hc).no_overlap

/-- Claim C1 witness: no double-booking on a concrete scheduling run. -/
theorem c1_witness :
    List.Pairwise noClash
      (schedule_day_with_remaining 0 [⟨ "P1", "S1", 1/10⟩]
        [⟨ "op1", "P1", "S1", "Y"⟩] [⟨ "P1", "S1", "W1"⟩] ["op1"]).1 :=
  c1_no_double_booking 0 [⟨ "P1", "S1", 1/10⟩] [⟨ "op1", "P1", "S1", "Y"⟩]
    [⟨ "P1", "S1", "W1"⟩] ["op1"]

/-- Claim C3: for every Operator and every day, the total minutes of that
Operator's Assignments are at most the day capacity (480 Mon-Thu, 360 Fri,
0 Sat/Sun), and on weekends no Assignments are produced at all. -/
theorem c3_capacity_respected (weekday : ℕ) (tasks : List TaskRow)
    (trainings : List TrainRow) (stations : List StationRow)
    (available : List String) :
    (∀ op, opUsed op
        (schedule_day_with_remaining weekday tasks trainings stations available).1 ≤
      dayCapacity weekday) ∧
    (5 ≤ weekday →
      (schedule_day_with_remaining weekday tasks trainings stations available).1 = []) := by
  by_cases hc : 5 ≤ weekday ∨ dayCapacity weekday = 0
  · rw [schedule_day_eq, if_pos hc]
    constructor
    · intro op
      show opUsed op [] ≤ dayCapacity weekday
      rw [opUsed]
      simpa using dayCapacity_nonneg weekday
    · intro _
      rfl
  · rw [schedule_day_eq, if_neg hc]
    dsimp only
    have hInv := schedule_day_inv weekday tasks trainings stations available hc
    constructor
    · intro op
      have h1 := hInv.avail_sum op
      have h2 := hInv.avail_nonneg op
      have h3 := dayCapacity_nonneg weekday
      split at h1 <;> omega
    · intro h5
      exact absurd (Or.inl h5) hc

/-- Claim C3 witness: capacity bound on a concrete scheduling run. -/
theorem c3_witness :
    opUsed "op1"
      (schedule_day_with_remaining 0 [⟨ "P1", "S1", 1/10⟩]
        [⟨ "op1", "P1", "S1", "Y"⟩] [⟨ "P1", "S1", "W1"⟩] ["op1"]).1 ≤
    dayCapacity 0 :=
  (c3_capacity_respected 0 [⟨ "P1", "S1", 1/10⟩] [⟨ "op1", "P1", "S1", "Y"⟩]
    [⟨ "P1", "S1", "W1"⟩] ["op1"]).1 "op1"

/-- Claim C4: every Assignment produced by the Day Scheduler has its
(Operator, Product, Subsystem) triple in the input Training relation with
Trained = Y. -/
theorem c4_training_respected (weekday : ℕ) (tasks : List TaskRow)
    (trainings : List TrainRow) (stations : List StationRow)
    (available : List String) (a : Assignment)
    (ha : a ∈ (schedule_day_with_remaining weekday tasks trainings stations available).1) :
    ∃ r ∈ trainings, r.trained = "Y" ∧ r.operator = a.operator ∧
      r.product = a.product ∧ r.subsystem = a.subsystem := by
  by_cases hc : 5 ≤ weekday ∨ dayCapacity weekday = 0
  · rw [schedule_day_eq, if_pos hc] at ha
    simp at ha
  · rw [schedule_day_eq, if_neg hc] at ha
    exact (schedule_day_inv weekday tasks trainings stations available hc).trained_ok a ha

/-- Claim C4 witness: the training row behind a concrete assignment. -/
theorem c4_witness :
    ∃ r ∈ [(⟨ "op1", "P1", "S1", "Y"⟩ : TrainRow)], r.trained = "Y" ∧
      r.operator = (⟨ "op1", "P1", "S1", some "W1", 480, 495, 1/4⟩ : Assignment).operator ∧
      r.product = (⟨ "op1", "P1", "S1", some "W1", 480, 495, 1/4⟩ : Assignment).product ∧
      r.subsystem = (⟨ "op1", "P1", "S1", some "W1", 480, 495, 1/4⟩ : Assignment).subsystem :=
  c4_training_respected 0 [⟨ "P1", "S1", 1/10⟩] [⟨ "op1", "P1", "S1", "Y"⟩]
    [⟨ "P1", "S1", "W1"⟩] ["op1"] ⟨ "op1", "P1", "S1", some "W1", 480, 495, 1/4⟩
    (by with_unfolding_all decide)

/-- Claim C5: every Assignment produced by the Day Scheduler has Start and
End on the 15-minute grid measured from the 08:00 day start, and its interval
lies within [day start, day start + day capacity]. -/
theorem c5_grid_alignment (weekday : ℕ) (tasks : List TaskRow)
    (trainings : List TrainRow) (stations : List StationRow)
    (available : List String) (a : Assignment)
    (ha : a ∈ (schedule_day_with_remaining weekday tasks trainings stations available).1) :
    (a.start - START_TIME_MIN) % 15 = 0 ∧ (a.stop - START_TIME_MIN) % 15 = 0 ∧
      START_TIME_MIN ≤ a.start ∧ a.stop ≤ START_TIME_MIN + dayCapacity weekday := by
  by_cases hc : 5 ≤ weekday ∨ dayCapacity weekday = 0
  · rw [schedule_day_eq, if_pos hc] at ha
    simp at ha
  · rw [schedule_day_eq, if_neg hc] at ha
    obtain ⟨h1, h2, h3, h4, h5, _⟩ :=
      (schedule_day_inv weekday tasks trainings stations available hc).bounds a ha
    exact ⟨h4, by omega, h1, h3⟩

/-- Claim C5 witness: grid alignment of a concrete assignment. -/
theorem c5_witness :
    ((⟨ "op1", "P1", "S1", some "W1", 480, 495, 1/4⟩ : Assignment).start - START_TIME_MIN) % 15 = 0 ∧
    ((⟨ "op1", "P1", "S1", some "W1", 480, 495, 1/4⟩ : Assignment).stop - START_TIME_MIN) % 15 = 0 ∧
    START_TIME_MIN ≤ (⟨ "op1", "P1", "S1", some "W1", 480, 495, 1/4⟩ : Assignment).start ∧
    (⟨ "op1", "P1", "S1", some "W1", 480, 495, 1/4⟩ : Assignment).stop ≤
      START_TIME_MIN + dayCapacity 0 :=
  c5_grid_alignment 0 [⟨ "P1", "S1", 1/10⟩] [⟨ "op1", "P1", "S1", "Y"⟩]
    [⟨ "P1", "S1", "W1"⟩] ["op1"] ⟨ "op1", "P1", "S1", some "W1", 480, 495, 1/4⟩
    (by with_unfolding_all decide)

/-- Claim C10: every Operator who receives at least one Assignment on a day
has an Assignment starting exactly at the 08:00 day start, and none of that
Operator's Assignments starts earlier. -/
theorem c10_first_assignment_at_day_start (weekday : ℕ) (tasks : List TaskRow)
    (trainings : List TrainRow) (stations : List StationRow)
    (available : List String) (op : String)
    (h : ∃ a ∈ (schedule_day_with_remaining weekday tasks trainings stations available).1,
      a.operator = op) :
    ∃ a ∈ (schedule_day_with_remaining weekday tasks trainings stations available).1,
      a.operator = op ∧ a.start = START_TIME_MIN ∧
      ∀ b ∈ (schedule_day_with_remaining weekday tasks trainings stations available).1,
        b.operator = op → START_TIME_MIN ≤ b.start := by
  by_cases hc : 5 ≤ weekday ∨ dayCapacity weekday = 0
  · rw [schedule_day_eq, if_pos hc] at h
    simp at h
  · rw [schedule_day_eq, if_neg hc] at h ⊢
    have hInv := schedule_day_inv weekday tasks trainings stations available hc
    obtain ⟨a, haMem, haOp, haSt⟩ := hInv.first_start op h
    exact ⟨a, haMem, haOp, haSt, fun b hb _ => (hInv.bounds b hb).1⟩

/-- Claim C10 witness: the concrete first assignment starts at 08:00. -/
theorem c10_witness :
    ∃ a ∈ (schedule_day_with_remaining 0 [⟨ "P1", "S1", 1/10⟩]
        [⟨ "op1", "P1", "S1", "Y"⟩] [⟨ "P1", "S1", "W1"⟩] ["op1"]).1,
      a.operator = "op1" ∧ a.start = START_TIME_MIN ∧
      ∀ b ∈ (schedule_day_with_remaining 0 [⟨ "P1", "S1", 1/10⟩]
          [⟨ "op1", "P1", "S1", "Y"⟩] [⟨ "P1", "S1", "W1"⟩] ["op1"]).1,
        b.operator = "op1" → START_TIME_MIN ≤ b.start :=
  c10_first_assignment_at_day_start 0 [⟨ "P1", "S1", 1/10⟩]
    [⟨ "op1", "P1", "S1", "Y"⟩] [⟨ "P1", "S1", "W1"⟩] ["op1"] "op1"
    (by with_unfolding_all decide)

theorem try_op_fold_delta (base : ℤ) (prod sub : String) (wc : Option String)
    (remain_h : ℚ) (ops : List String) (st : SchedState) (hr : 0 < remain_h) :
    ∃ A : List Assignment,
      (ops.foldl (try_op base prod sub wc remain_h) (st, 0)).1.assignments =
        st.assignments ++ A ∧
      (ops.foldl (try_op base prod sub wc remain_h) (st, 0)).1.remaining =
        st.remaining ∧
      (ops.foldl (try_op base prod sub wc remain_h) (st, 0)).2 = sumDurH A ∧
      0 ≤ (ops.foldl (try_op base prod sub wc remain_h) (st, 0)).2 ∧
      (ops.foldl (try_op base prod sub wc remain_h) (st, 0)).2 ≤ remain_h + 14/60 := by
  have h := foldl_inv (fun acc : SchedState × ℚ =>
      ∃ A : List Assignment, acc.1.assignments = st.assignments ++ A ∧
        acc.1.remaining = st.remaining ∧ acc.2 = sumDurH A ∧ 0 ≤ acc.2 ∧
        acc.2 ≤ remain_h + 14/60)
    (try_op base prod sub wc remain_h) ops (st, 0)
    ⟨[], (List.append_nil _).symm, rfl, rfl, le_refl 0, by linarith⟩
    ?step
  · exact h
  case step =>
    rintro ⟨st0, S0⟩ op hmem ⟨A, hA1, hA2, hA3, hA4, hA5⟩
    rcases try_op_spec base prod sub wc remain_h st0 S0 op with heq |
      ⟨a, _, _, _, _, hlt, _, hb2, _, _, _, hb6, hble, _, _, _, _, heq⟩
    · rw [heq]
      exact ⟨A, hA1, hA2, hA3, hA4, hA5⟩
    · rw [heq]
      dsimp only
      have hdpos : 0 < a.duration_h := by
        rw [hb6]
        have : (0 : ℚ) < ((a.stop - a.start : ℤ) : ℚ) := by
          exact_mod_cast Int.sub_pos.mpr hb2
        positivity
      refine ⟨A ++ [a], ?_, hA2, ?_, by linarith, by linarith⟩
      · rw [hA1, List.append_assoc]
      · rw [sumDurH, List.map_append, List.sum_append, ← sumDurH, ← hA3]
        simp [sumDurH]

/-- Claim C2 counterexample: a single 0.1-hour task is scheduled as a full
15-minute (0.25-hour) slot with nothing carried forward, so
scheduled + carried differs from the input RemainingTime by 0.15 > 0.01. -/
theorem c2_counterexample :
    sumDurH (schedule_day_with_remaining 0 [⟨ "P1", "S1", 1/10⟩]
      [⟨ "op1", "P1", "S1", "Y"⟩] [⟨ "P1", "S1", "W1"⟩] ["op1"]).1 = 1/4 ∧
    sumRem (schedule_day_with_remaining 0 [⟨ "P1", "S1", 1/10⟩]
      [⟨ "op1", "P1", "S1", "Y"⟩] [⟨ "P1", "S1", "W1"⟩] ["op1"]).2 = 0 ∧
    ¬ (|sumDurH (schedule_day_with_remaining 0 [⟨ "P1", "S1", 1/10⟩]
        [⟨ "op1", "P1", "S1", "Y"⟩] [⟨ "P1", "S1", "W1"⟩] ["op1"]).1 +
      sumRem (schedule_day_with_remaining 0 [⟨ "P1", "S1", 1/10⟩]
        [⟨ "op1", "P1", "S1", "Y"⟩] [⟨ "P1", "S1", "W1"⟩] ["op1"]).2 - 1/10| ≤ 1/100) := by
  with_unfolding_all decide

/-- Claim C2 (amended): for every task row processed by the Day Scheduler,
the committed hours plus the carried-forward hours are at least the input
RemainingTime minus 0.01, and at most the input RemainingTime plus 0.25;
the upper slack arises because each committed chunk is rounded up to the
15-minute grid, so the balance need not hold within 0.01 when the rounding
overshoots the remaining time. -/
theorem c2_conservation_amended (base : ℤ) (trainings : List TrainRow)
    (available : List String) (st : SchedState) (t : MergedTask) :
    ∃ (A : List Assignment) (R : List TaskRow),
      (process_task base trainings available st t).assignments =
        st.assignments ++ A ∧
      (process_task base trainings available st t).remaining =
        st.remaining ++ R ∧
      t.remainingTime - 1/100 ≤ sumDurH A + sumRem R ∧
      sumDurH A + sumRem R ≤ t.remainingTime + 1/4 := by
  rw [process_task]
  split
  · refine ⟨[], [⟨t.product, t.subsystem, t.remainingTime⟩], (List.append_nil _).symm,
      rfl, ?_, ?_⟩
    · simp [sumDurH, sumRem]
    · simp only [sumDurH, sumRem, List.map_nil, List.sum_nil, List.map_cons,
        List.sum_cons, zero_add, add_zero]
      linarith
  · rename_i hcond
    have hr : 0 < t.remainingTime := by
      rw [Bool.or_eq_true, not_or] at hcond
      have := hcond.2
      rw [decide_eq_true_eq] at this
      linarith [not_le.mp this]
    dsimp only
    obtain ⟨A, hA1, hA2, hA3, hA4, hA5⟩ := try_op_fold_delta base t.product
      t.subsystem t.workcell t.remainingTime
      (List.insertionSort (fun a b => st.avail b ≤ st.avail a)
        ((trained_for trainings t.product t.subsystem).filter
          (fun op => available.contains op && decide (0 < st.avail op)))) st hr
    set S := ((List.insertionSort (fun a b => st.avail b ≤ st.avail a)
        ((trained_for trainings t.product t.subsystem).filter
          (fun op => available.contains op && decide (0 < st.avail op)))).foldl
      (try_op base t.product t.subsystem t.workcell t.remainingTime) (st, 0)).2 with hS
    obtain ⟨hr2l, hr2u⟩ := round2_bounds (t.remainingTime - S)
    split
    · rename_i hpos
      refine ⟨A, [⟨t.product, t.subsystem, max 0 (round2 (t.remainingTime - S))⟩],
        hA1, by rw [hA2], ?_, ?_⟩
      · simp only [sumRem, List.map_cons, List.map_nil, List.sum_cons, List.sum_nil]
        rw [← hA3]
        rcases le_or_lt (round2 (t.remainingTime - S)) 0 with hc | hc
        · rw [max_eq_left hc]
          linarith
        · rw [max_eq_right (le_of_lt hc)]
          linarith
      · simp only [sumRem, List.map_cons, List.map_nil, List.sum_cons, List.sum_nil]
        rw [← hA3]
        rcases le_or_lt (round2 (t.remainingTime - S)) 0 with hc | hc
        · rw [max_eq_left hc]
          linarith
        · rw [max_eq_right (le_of_lt hc)]
          linarith
    · rename_i hnpos
      have hzero : max 0 (round2 (t.remainingTime - S)) = 0 := by
        rcases le_or_lt (round2 (t.remainingTime - S)) 0 with hc | hc
        · rw [max_eq_left hc]
        · exact absurd (by rw [max_eq_right (le_of_lt hc)]; exact hc) hnpos
      have hSr : t.remainingTime - S ≤ 1/200 := by
        rcases le_or_lt (round2 (t.remainingTime - S)) 0 with hc | hc
        · linarith
        · exact absurd (by rw [max_eq_right (le_of_lt hc)]; exact hc) hnpos
      refine ⟨A, [], hA1, by rw [hA2, List.append_nil], ?_, ?_⟩
      · simp only [sumRem, List.map_nil, List.sum_nil]
        rw [← hA3]
        linarith
      · simp only [sumRem, List.map_nil, List.sum_nil]
        rw [← hA3]
        linarith

/-- Claim C2 amended witness: the conservation bounds on a concrete task. -/
theorem c2_amended_witness :
    ∃ (A : List Assignment) (R : List TaskRow),
      (process_task 480 [⟨ "op1", "P1", "S1", "Y"⟩] ["op1"]
        (initState 480 ["op1"]) ⟨ "P1", "S1", some "W1", 1/10⟩).assignments =
        (initState 480 ["op1"]).assignments ++ A ∧
      (process_task 480 [⟨ "op1", "P1", "S1", "Y"⟩] ["op1"]
        (initState 480 ["op1"]) ⟨ "P1", "S1", some "W1", 1/10⟩).remaining =
        (initState 480 ["op1"]).remaining ++ R ∧
      (1 : ℚ)/10 - 1/100 ≤ sumDurH A + sumRem R ∧
      sumDurH A + sumRem R ≤ (1 : ℚ)/10 + 1/4 :=
  c2_conservation_amended 480 [⟨ "op1", "P1", "S1", "Y"⟩] ["op1"]
    (initState 480 ["op1"]) ⟨ "P1", "S1", some "W1", 1/10⟩

theorem process_task_nonpos (base : ℤ) (trainings : List TrainRow)
    (available : List String) (st : SchedState) (t : MergedTask)
    (h : t.remainingTime ≤ 0) :
    process_task base trainings available st t =
      { st with remaining := st.remaining ++ [⟨t.product, t.subsystem, t.remainingTime⟩] } := by
  have hc : (((trained_for trainings t.product t.subsystem).filter
      (fun op => available.contains op && decide (0 < st.avail op))).isEmpty
      || decide (t.remainingTime ≤ 0)) = true := by
    rw [Bool.or_eq_true]
    right
    exact decide_eq_true h
  rw [process_task, if_pos hc]

theorem foldl_nonpos_rows (base : ℤ) (trainings : List TrainRow)
    (available : List String) (p s : String) (r : ℚ) (hr : r ≤ 0) :
    ∀ (l : List MergedTask) (st : SchedState),
      (∀ x ∈ l, x.product = p ∧ x.subsystem = s ∧ x.remainingTime = r) →
      l.foldl (process_task base trainings available) st =
        { st with remaining := st.remaining ++ l.map (fun _ => ⟨p, s, r⟩) }
  | [], st, _ => by simp
  | x :: xs, st, hall => by
    obtain ⟨hp, hs, hrt⟩ := hall x (List.mem_cons_self _ _)
    rw [List.foldl_cons, process_task_nonpos base trainings available st x
      (by rw [hrt]; exact hr)]
    rw [foldl_nonpos_rows base trainings available p s r hr xs _
      (fun y hy => hall y (List.mem_cons_of_mem _ hy))]
    simp [hp, hs, hrt, List.append_assoc]

theorem merge_stations_single_mem {t : TaskRow} {stations : List StationRow}
    {x : MergedTask} (hx : x ∈ merge_stations [t] stations) :
    x.product = t.product ∧ x.subsystem = t.subsystem ∧
      x.remainingTime = t.remainingTime := by
  rw [merge_stations] at hx
  simp only [List.flatMap_cons, List.flatMap_nil, List.append_nil] at hx
  split at hx
  · rw [List.mem_singleton] at hx
    subst hx
    exact ⟨rfl, rfl, rfl⟩
  · obtain ⟨w, _, hw⟩ := List.mem_map.mp hx
    subst hw
    exact ⟨rfl, rfl, rfl⟩

theorem merge_stations_single_ne_nil (t : TaskRow) (stations : List StationRow) :
    merge_stations [t] stations ≠ [] := by
  rw [merge_stations]
  simp only [List.flatMap_cons, List.flatMap_nil, List.append_nil]
  split
  · exact List.cons_ne_nil _ _
  · rename_i hne
    intro hmap
    rw [List.map_eq_nil_iff] at hmap
    exact hne (by rw [hmap]; rfl)

/-- Claim C6 counterexample: a task with RemainingTime = 0 is not dropped;
it yields no Assignment but does appear in the carried-forward remainder
table returned for the next day. -/
theorem c6_counterexample :
    (schedule_day_with_remaining 0 [⟨ "P1", "S1", 0⟩] [] [] []).1 = [] ∧
    (⟨ "P1", "S1", (0 : ℚ)⟩ : TaskRow) ∈
      (schedule_day_with_remaining 0 [⟨ "P1", "S1", 0⟩] [] [] []).2 := by
  with_unfolding_all decide

/-- Claim C6 (amended): a Task whose RemainingTime is ≤ 0 yields no
Assignment, but it is not dropped: it is carried forward unchanged in the
remainder table returned for the next day (one remainder row per merged
task row). -/
theorem c6_nonpositive_carried_amended (weekday : ℕ) (p s : String) (r : ℚ)
    (trainings : List TrainRow) (stations : List StationRow)
    (available : List String) (h : r ≤ 0) :
    (schedule_day_with_remaining weekday [⟨p, s, r⟩] trainings stations available).1 = [] ∧
    (schedule_day_with_remaining weekday [⟨p, s, r⟩] trainings stations available).2 ≠ [] ∧
    ∀ row ∈ (schedule_day_with_remaining weekday [⟨p, s, r⟩] trainings stations available).2,
      row = ⟨p, s, r⟩ := by
  by_cases hc : 5 ≤ weekday ∨ dayCapacity weekday = 0
  · rw [schedule_day_eq, if_pos hc]
    refine ⟨rfl, List.cons_ne_nil _ _, ?_⟩
    intro row hrow
    rw [List.mem_singleton] at hrow
    exact hrow
  · rw [schedule_day_eq, if_neg hc]
    dsimp only
    have hall : ∀ x ∈ sortTasksDesc (merge_stations [⟨p, s, r⟩] stations),
        x.product = p ∧ x.subsystem = s ∧ x.remainingTime = r := by
      intro x hx
      rw [sortTasksDesc, (List.perm_insertionSort _ _).mem_iff] at hx
      exact merge_stations_single_mem hx
    rw [day_fold, foldl_nonpos_rows (dayCapacity weekday) trainings available p s r h
      (sortTasksDesc (merge_stations [⟨p, s, r⟩] stations)) _ hall]
    refine ⟨rfl, ?_, ?_⟩
    · show (initState (dayCapacity weekday) available).remaining ++
        (sortTasksDesc (merge_stations [⟨p, s, r⟩] stations)).map (fun _ => ⟨p, s, r⟩) ≠ []
      rw [initState]
      dsimp only
      rw [List.nil_append]
      intro hmap
      rw [List.map_eq_nil_iff] at hmap
      have hlen := (List.perm_insertionSort
        (fun a b : MergedTask => b.remainingTime ≤ a.remainingTime)
        (merge_stations [⟨p, s, r⟩] stations)).length_eq
      rw [sortTasksDesc] at hmap
      rw [hmap] at hlen
      exact merge_stations_single_ne_nil ⟨p, s, r⟩ stations
        (List.eq_nil_of_length_eq_zero hlen.symm)
    · intro row hrow
      rw [initState] at hrow
      dsimp only at hrow
      rw [List.nil_append] at hrow
      obtain ⟨x, _, hx⟩ := List.mem_map.mp hrow
      exact hx.symm

/-- Claim C6 amended witness: concrete zero-remaining task carried unchanged. -/
theorem c6_amended_witness :
    (schedule_day_with_remaining 0 [⟨ "P1", "S1", 0⟩] [] [] []).1 = [] ∧
    (schedule_day_with_remaining 0 [⟨ "P1", "S1", 0⟩] [] [] []).2 ≠ [] ∧
    ∀ row ∈ (schedule_day_with_remaining 0 [⟨ "P1", "S1", 0⟩] [] [] []).2,
      row = ⟨ "P1", "S1", 0⟩ :=
  c6_nonpositive_carried_amended 0 "P1" "S1" 0 [] [] [] (le_refl 0)

theorem try_op_tiny (base : ℤ) (prod sub : String) (wc : Option String)
    (r : ℚ) (st : SchedState) (op : String) (h0 : 0 < r) (h1 : r < 1/60) :
    try_op base prod sub wc r (st, 0) op = (st, 0) := by
  rw [try_op]
  dsimp only
  rw [if_neg (not_le.mpr h0)]
  split
  · rfl
  · rename_i h2
    have hstep : TIME_STEP_MIN = (15 : ℤ) := rfl
    rw [hstep] at h2
    have h15 : (15 : ℚ) ≤ ((st.avail op : ℤ) : ℚ) := by
      exact_mod_cast not_lt.mp h2
    have hmin : min (r - 0) ((st.avail op : ℚ) / 60) = r := by
      rw [sub_zero]
      apply min_eq_left
      rw [le_div_iff₀ (by norm_num : (0 : ℚ) < 60)]
      calc r * 60 ≤ (1/60) * 60 := by nlinarith
        _ ≤ (st.avail op : ℚ) := by linarith
    have hplace : place_next_slot START_TIME_MIN base
        (min (r - 0) ((st.avail op : ℚ) / 60)) TIME_STEP_MIN (st.occ_op op) = none := by
      rw [place_next_slot]
      have hz : round_up_to_step (pyInt (min (r - 0) ((st.avail op : ℚ) / 60) * 60))
          TIME_STEP_MIN = 0 := by
        rw [hmin]
        have hfl : pyInt (r * 60) = 0 := by
          rw [pyInt_eq_floor (by positivity)]
          rw [Int.floor_eq_zero_iff]
          constructor
          · positivity
          · calc r * 60 < (1/60) * 60 := by nlinarith
              _ = 1 := by norm_num
        rw [hfl, hstep, round_up_to_step]
        norm_num
      rw [hz]
      rw [if_pos rfl]
    rw [hplace]

theorem fold_tiny (base : ℤ) (prod sub : String) (wc : Option String) (r : ℚ)
    (st : SchedState) (h0 : 0 < r) (h1 : r < 1/60) :
    ∀ ops : List String, ops.foldl (try_op base prod sub wc r) (st, 0) = (st, 0)
  | [] => rfl
  | op :: ops => by
    rw [List.foldl_cons, try_op_tiny base prod sub wc r st op h0 h1]
    exact fold_tiny base prod sub wc r st h0 h1 ops

theorem process_task_tiny_step (base : ℤ) (trainings : List TrainRow)
    (available : List String) (st : SchedState) (x : MergedTask)
    (h0 : 0 < x.remainingTime) (h1 : x.remainingTime < 1/60) :
    ∃ X : List TaskRow,
      process_task base trainings available st x =
        { st with remaining := st.remaining ++ X } ∧
      ∀ row ∈ X, row.product = x.product ∧ row.subsystem = x.subsystem ∧
        (row.remainingTime = x.remainingTime ∨
          row.remainingTime = round2 x.remainingTime) := by
  rw [process_task]
  split
  · refine ⟨[⟨x.product, x.subsystem, x.remainingTime⟩], rfl, ?_⟩
    intro row hrow
    rw [List.mem_singleton] at hrow
    subst hrow
    exact ⟨rfl, rfl, Or.inl rfl⟩
  · dsimp only
    rw [fold_tiny base x.product x.subsystem x.workcell x.remainingTime st h0 h1]
    dsimp only
    rw [sub_zero]
    split
    · rename_i hpos
      have hmax : max 0 (round2 x.remainingTime) = round2 x.remainingTime := by
        rcases le_or_lt (round2 x.remainingTime) 0 with hc | hc
        · rw [max_eq_left hc] at hpos
          exact absurd hpos (lt_irrefl 0)
        · exact max_eq_right (le_of_lt hc)
      refine ⟨[⟨x.product, x.subsystem, max 0 (round2 x.remainingTime)⟩], rfl, ?_⟩
      intro row hrow
      rw [List.mem_singleton] at hrow
      subst hrow
      exact ⟨rfl, rfl, Or.inr hmax⟩
    · exact ⟨[], by simp, by simp⟩

/-- Claim C9 counterexample: a task with RemainingTime = 0.016 h (< 1/60 h)
gets no Assignment on Monday and is carried forward rounded to 0.02 h, but
0.02 h exceeds one minute, so the very same inputs schedule it on Tuesday:
it is not true that such a task is never scheduled on a later day. -/
theorem c9_counterexample :
    (schedule_day_with_remaining 0 [⟨ "P1", "S1", 2/125⟩]
      [⟨ "op1", "P1", "S1", "Y"⟩] [⟨ "P1", "S1", "W1"⟩] ["op1"]).1 = [] ∧
    (schedule_day_with_remaining 0 [⟨ "P1", "S1", 2/125⟩]
      [⟨ "op1", "P1", "S1", "Y"⟩] [⟨ "P1", "S1", "W1"⟩] ["op1"]).2 =
      [⟨ "P1", "S1", 1/50⟩] ∧
    (schedule_day_with_remaining 1 [⟨ "P1", "S1", 1/50⟩]
      [⟨ "op1", "P1", "S1", "Y"⟩] [⟨ "P1", "S1", "W1"⟩] ["op1"]).1 =
      [⟨ "op1", "P1", "S1", some "W1", 480, 495, 1/4⟩] := by
  with_unfolding_all decide

/-- Claim C9 (amended): a Task with 0 < RemainingTime < 1/60 h receives no
Assignment on the day it is processed; each of its remainder rows carries
either the unchanged RemainingTime (when no trained operator was available)
or round(RemainingTime, 2) (dropped entirely when that rounds to 0). Since
round(RemainingTime, 2) can reach 0.02 h > 1/60 h, the task can still be
scheduled on a later day of the week. -/
theorem c9_tiny_task_amended (weekday : ℕ) (p s : String) (r : ℚ)
    (trainings : List TrainRow) (stations : List StationRow)
    (available : List String) (h0 : 0 < r) (h1 : r < 1/60) :
    (schedule_day_with_remaining weekday [⟨p, s, r⟩] trainings stations available).1 = [] ∧
    ∀ row ∈ (schedule_day_with_remaining weekday [⟨p, s, r⟩] trainings stations available).2,
      row.product = p ∧ row.subsystem = s ∧
        (row.remainingTime = r ∨ row.remainingTime = round2 r) := by
  by_cases hc : 5 ≤ weekday ∨ dayCapacity weekday = 0
  · rw [schedule_day_eq, if_pos hc]
    refine ⟨rfl, ?_⟩
    intro row hrow
    rw [List.mem_singleton] at hrow
    subst hrow
    exact ⟨rfl, rfl, Or.inl rfl⟩
  · rw [schedule_day_eq, if_neg hc]
    dsimp only
    rw [day_fold]
    have hfold := foldl_inv (fun st' : SchedState => st'.assignments = [] ∧
        ∀ row ∈ st'.remaining, row.product = p ∧ row.subsystem = s ∧
          (row.remainingTime = r ∨ row.remainingTime = round2 r))
      (process_task (dayCapacity weekday) trainings available)
      (sortTasksDesc (merge_stations [⟨p, s, r⟩] stations))
      (initState (dayCapacity weekday) available)
      ⟨rfl, by intro row hrow; rw [initState] at hrow; simp at hrow⟩
      ?step
    · exact ⟨hfold.1, hfold.2⟩
    case step =>
      intro st' x hx ⟨hP1, hP2⟩
      have hfields : x.product = p ∧ x.subsystem = s ∧ x.remainingTime = r := by
        rw [sortTasksDesc, (List.perm_insertionSort _ _).mem_iff] at hx
        exact merge_stations_single_mem hx
      obtain ⟨X, hXeq, hXrows⟩ := process_task_tiny_step (dayCapacity weekday)
        trainings available st' x (by rw [hfields.2.2]; exact h0)
        (by rw [hfields.2.2]; exact h1)
      rw [hXeq]
      refine ⟨hP1, ?_⟩
      intro row hrow
      rcases List.mem_append.mp hrow with hrow | hrow
      · exact hP2 row hrow
      · obtain ⟨hr1, hr2, hr3⟩ := hXrows row hrow
        rw [hfields.1] at hr1
        rw [hfields.2.1] at hr2
        rw [hfields.2.2] at hr3
        exact ⟨hr1, hr2, hr3⟩

/-- Claim C9 amended witness: a concrete 0.01 h task yields no assignment and
one remainder row at round(0.01, 2) = 0.01. -/
theorem c9_amended_witness :
    (schedule_day_with_remaining 0 [⟨ "P1", "S1", 1/100⟩]
      [⟨ "op1", "P1", "S1", "Y"⟩] [⟨ "P1", "S1", "W1"⟩] ["op1"]).1 = [] ∧
    ∀ row ∈ (schedule_day_with_remaining 0 [⟨ "P1", "S1", 1/100⟩]
        [⟨ "op1", "P1", "S1", "Y"⟩] [⟨ "P1", "S1", "W1"⟩] ["op1"]).2,
      row.product = "P1" ∧ row.subsystem = "S1" ∧
        (row.remainingTime = 1/100 ∨ row.remainingTime = round2 (1/100)) :=
  c9_tiny_task_amended 0 "P1" "S1" (1/100) [⟨ "op1", "P1", "S1", "Y"⟩]
    [⟨ "P1", "S1", "W1"⟩] ["op1"] (by norm_num) (by norm_num)

/-- Claim C7: with multiplier 1.0, one demand row of monthly Quantity 20,
one subsystem for that product in the times table, and a target month with
exactly 20 business days, the Task Pool Builder computes a daily target of 1
and returns a weekly pool of exactly 5 tasks carrying the standard duration. -/
theorem c7_pool_scenario (y m d : ℕ) (P S : String) (T : ℚ)
    (hbiz : (business_days_in_month y m).length = 20) :
    make_weekly_task_pool [⟨y, m, P, 20⟩] [⟨P, S, T⟩] ⟨y, m, d⟩ 1 =
      List.replicate 5 ⟨P, S, some T⟩ := by
  rw [make_weekly_task_pool]
  simp only [hbiz]
  norm_num
  simp only [show Int.toNat 5 = 5 from rfl, show List.range 5 = [0, 1, 2, 3, 4] from rfl,
    List.flatMap_cons, List.flatMap_nil, List.append_nil, List.nil_append]
  norm_num [List.replicate]

/-- Claim C7 witness: February 2021 has exactly 20 business days, and the
scenario produces the 5-task pool. -/
theorem c7_witness :
    make_weekly_task_pool [⟨2021, 2, "P1", 20⟩] [⟨ "P1", "S1", 3⟩] ⟨2021, 2, 1⟩ 1 =
      List.replicate 5 ⟨ "P1", "S1", some 3⟩ :=
  c7_pool_scenario 2021 2 1 "P1" "S1" 3 (by decide)

/-- Claim C8: if the demand table has no rows for the target (year, month),
the Task Pool Builder returns an empty pool and the Weekly Proposal
Generator emits an empty proposal record set. -/
theorem c8_empty_demand (demand : List DemandRow) (times : List TimesRow)
    (stations : List StationRow) (trainings : List TrainRow) (monday : Date)
    (mult : ℚ) (avail : ℕ → List String)
    (hd : demand.filter
      (fun r => decide (r.year = monday.year ∧ r.month = monday.month)) = []) :
    make_weekly_task_pool demand times monday mult = [] ∧
    generate_weekly_proposal demand times stations trainings monday mult avail = [] := by
  have hpool : make_weekly_task_pool demand times monday mult = [] := by
    rw [make_weekly_task_pool]
    dsimp only
    rw [hd]
    rfl
  refine ⟨hpool, ?_⟩
  rw [generate_weekly_proposal, hpool]
  rfl

/-- Claim C8 witness: a concrete month with no demand rows yields an empty
pool and an empty proposal. -/
theorem c8_witness :
    make_weekly_task_pool [⟨2025, 1, "P1", 10⟩] [] ⟨2025, 2, 3⟩ 1 = [] ∧
    generate_weekly_proposal [⟨2025, 1, "P1", 10⟩] [] [] [] ⟨2025, 2, 3⟩ 1
      (fun _ => []) = [] :=
  c8_empty_demand [⟨2025, 1, "P1", 10⟩] [] [] [] ⟨2025, 2, 3⟩ 1 (fun _ => [])
    (by decide)
